import Mathlib

/-!
# Verification of the ChocoDealersBot inventory core

A shallow embedding, in Lean 4, of the inventory transaction core of the
ChocoDealersBot repository:

* the unit conversion engine (`src/bot/utils/unit_conversion.py`):
  `convert_to_grams`, `parse_quantity_input`;
* the inventory transaction ledger (`confirm_action` in
  `src/bot/handlers/inventory.py`, together with the session semantics of
  `get_db` in `src/database/db.py`);
* the ingredient restock operation (`process_restock` in
  `src/database/operations.py`).

Python floats are modelled as exact rationals (`ℚ`); Python's `int(...)`
truncation is `pyInt`.  Database rows become explicit state records, and the
commit/rollback behaviour of the `get_db` context manager is made explicit in
the ledger step function.
-/

/-! ## Numeric model -/

/-- Python's `int(x)` on a numeric value: truncation toward zero.
For a rational in lowest terms this is t-division of numerator by
denominator (the denominator is positive). -/
def pyInt (q : ℚ) : ℤ := Int.tdiv q.num q.den

/-- Multiplication of embedded numeric values.  Semantically this is plain
multiplication on `ℚ` (see `pyMul_eq_mul`); it is spelled via `Rat.divInt`
so that closed instances evaluate by `decide`/`rfl` (Batteries marks
`Rat.mul` itself `@[irreducible]`). -/
def pyMul (a b : ℚ) : ℚ := Rat.divInt (a.num * b.num) ((a.den : ℤ) * (b.den : ℤ))

theorem pyMul_eq_mul (a b : ℚ) : pyMul a b = a * b := by
  rw [pyMul, ← Rat.divInt_mul_divInt' a.num (a.den : ℤ) b.num (b.den : ℤ),
      Rat.num_divInt_den, Rat.num_divInt_den]

/-- Python's `str(...)` on the numeric value of a quantity, as far as the
spec exercises it: an integral value prints without a decimal point
(`str(5) = "5"`).  Non-integral rendering is not exercised by any claim. -/
def pyNumRepr (q : ℚ) : String := if q.den = 1 then toString q.num else toString q

/-! ## Character and string helpers (ASCII/Cyrillic fragment of Python str) -/

/-- Whitespace as stripped/split by Python `str.strip` / `str.split` /
matched by `\s` (restricted to the ASCII whitespace characters:
space, tab, newline, carriage return, vertical tab, form feed). -/
def isPySpace (c : Char) : Bool :=
  c.toNat = 32 || c.toNat = 9 || c.toNat = 10 || c.toNat = 13 ||
    c.toNat = 11 || c.toNat = 12

/-- ASCII decimal digit `0`..`9` (the `\d` of the quantity regex,
restricted to ASCII). -/
def isDigitChar (c : Char) : Bool := 48 ≤ c.toNat && c.toNat ≤ 57

/-- A character matched by the `[\d.]` class of the quantity regex:
an ASCII digit or the decimal point. -/
def isDigitDotChar (c : Char) : Bool := isDigitChar c || c.toNat = 46

/-- A character matched by the `[a-zA-Zа-яА-Я]` class of the quantity
regex: Latin or Cyrillic letter (`а`..`я` is 1072..1103, `А`..`Я` is
1040..1071 in code points). -/
def isUnitLetterChar (c : Char) : Bool :=
  (97 ≤ c.toNat && c.toNat ≤ 122) || (65 ≤ c.toNat && c.toNat ≤ 90) ||
    (1072 ≤ c.toNat && c.toNat ≤ 1103) || (1040 ≤ c.toNat && c.toNat ≤ 1071)

/-- Python `str.strip()` on a character list: drop whitespace from both
ends. -/
def pyStripList (l : List Char) : List Char :=
  ((l.dropWhile isPySpace).reverse.dropWhile isPySpace).reverse

/-- Python `str.strip()`. -/
def pyStrip (s : String) : String := ⟨pyStripList s.data⟩

/-- Python `str.lower()` (ASCII case folding; the Cyrillic unit spellings
in the source tables are already lowercase). -/
def pyLower (s : String) : String := ⟨s.data.map Char.toLower⟩

/-! ## Unit conversion tables (`src/bot/utils/unit_conversion.py`, lines 17-53) -/

/-- `WEIGHT_CONVERSIONS`: the fixed lexical table mapping weight/volume unit
spellings to their gram-equivalent factor. -/
def WEIGHT_CONVERSIONS : List (String × ℚ) :=
  [("г", 1), ("грамм", 1), ("граммы", 1), ("граммов", 1),
   ("g", 1), ("gram", 1), ("grams", 1),
   ("кг", 1000), ("килограмм", 1000), ("килограммы", 1000), ("килограммов", 1000),
   ("kg", 1000), ("kilogram", 1000), ("kilograms", 1000),
   ("мл", 1), ("миллилитр", 1), ("миллилитры", 1), ("миллилитров", 1),
   ("ml", 1), ("milliliter", 1), ("milliliters", 1),
   ("л", 1000), ("литр", 1000), ("литры", 1000), ("литров", 1000),
   ("l", 1000), ("liter", 1000), ("liters", 1000)]

/-- The kilogram spellings used for display formatting (line 93 of the
source). -/
def kgSpellings : List String :=
  ["кг", "kg", "килограмм", "килограммы", "килограммов", "kilogram", "kilograms"]

/-- The liter spellings used for display formatting (line 95 of the
source). -/
def literSpellings : List String :=
  ["л", "l", "литр", "литры", "литров", "liter", "liters"]

/-- The gram spellings of the table (spec-side grouping: the `g` family,
factor 1). -/
def gramSpellings : List String :=
  ["г", "грамм", "граммы", "граммов", "g", "gram", "grams"]

/-- The milliliter spellings of the table (spec-side grouping: the `ml`
family, factor 1). -/
def mlSpellings : List String :=
  ["мл", "миллилитр", "миллилитры", "миллилитров", "ml", "milliliter", "milliliters"]

/-- `piece_units` (line 103 of the source): the "piece"/"pcs" family. -/
def piece_units : List String :=
  ["штука", "штуки", "штук", "шт", "piece", "pieces", "pc", "pcs"]

/-- `package_units` (line 116). -/
def package_units : List String := ["коробка", "коробки", "коробок", "box", "boxes"]

/-- `pack_units` (line 117). -/
def pack_units : List String := ["пачка", "пачки", "пачек", "pack", "packs"]

/-- `package_units_all = package_units + pack_units` (line 118). -/
def package_units_all : List String := package_units ++ pack_units

/-- The `product_info` dict passed to the converter: the product metadata
fields the converter reads (`grammovka` is grams per piece, `Integer`
column; `quantity_per_package` is pieces per box/pack, `Integer` column).
A `none` field models an absent key or a `None` value. -/
structure ProductInfo where
  grammovka : Option ℤ
  quantity_per_package : Option ℤ
deriving DecidableEq

/-- `product_info and product_info.get("grammovka")` — the converter treats
the grammovka as present only when the dict is truthy and the value is
truthy (so a 0 counts as absent, as in Python). -/
def getGrammovka : Option ProductInfo → Option ℤ
  | none => none
  | some pi =>
    match pi.grammovka with
    | none => none
    | some g => if g = 0 then none else some g

/-- `product_info and product_info.get("quantity_per_package")`, with the
same Python truthiness convention. -/
def getQtyPerPackage : Option ProductInfo → Option ℤ
  | none => none
  | some pi =>
    match pi.quantity_per_package with
    | none => none
    | some q => if q = 0 then none else some q

/-! ## `convert_to_grams` (lines 60-142 of `unit_conversion.py`) -/

/-- Case 1 of `convert_to_grams` (lines 87-100): direct weight/volume
conversion, `grams = int(value * multiplier)`, with a display string that
echoes the original quantity for the kilogram and liter spellings. -/
def weightBranch (value : ℚ) (unit_lower : String) (multiplier : ℚ) : ℤ × String :=
  let grams := pyInt (pyMul value multiplier)
  let display :=
    if kgSpellings.contains unit_lower then
      let v := pyNumRepr value
      s!"{grams}g ({v}kg)"
    else if literSpellings.contains unit_lower then
      let v := pyNumRepr value
      s!"{grams}g ({v}L)"
    else s!"{grams}g"
  (grams, display)

/-- Case 2 of `convert_to_grams` (lines 102-113): piece units; with a
(truthy) grammovka, `grams = int(value * grammovka)`; otherwise the count
`int(value)` is stored directly. -/
def piecesBranch (value : ℚ) (product_info : Option ProductInfo) : ℤ × String :=
  match getGrammovka product_info with
  | some grammovka =>
    let grams := pyInt (pyMul value (grammovka : ℚ))
    let iv := pyInt value
    (grams, s!"{grams}g ({iv} pieces)")
  | none =>
    let iv := pyInt value
    (iv, s!"{iv} pieces")

/-- Case 3 of `convert_to_grams` (lines 115-137): package units; with a
(truthy) `quantity_per_package`, `total_pieces = int(value * qty)`, further
multiplied by the grammovka when that is also set; with no package
breakdown the raw `int(value)` is stored. -/
def packageBranch (value : ℚ) (product_info : Option ProductInfo) : ℤ × String :=
  match getQtyPerPackage product_info with
  | some qty_per_package =>
    let total_pieces := pyInt (pyMul value (qty_per_package : ℚ))
    match getGrammovka product_info with
    | some grammovka =>
      let grams := total_pieces * grammovka
      let iv := pyInt value
      (grams, s!"{grams}g ({iv} packages, {total_pieces} pieces)")
    | none =>
      let iv := pyInt value
      (total_pieces, s!"{total_pieces} pieces ({iv} packages)")
  | none =>
    let iv := pyInt value
    (iv, s!"{iv} packages")

/-- Case 4 of `convert_to_grams` (lines 139-142): unknown unit; the raw
value is truncated to an integer and stored under the original (not
lowercased) unit string.  The warning is printed, not returned. -/
def fallbackBranch (value : ℚ) (unit : String) : ℤ × String :=
  let iv := pyInt value
  (iv, s!"{iv} {unit}")

/-- The body of `convert_to_grams` once `unit_lower = unit.lower().strip()`
has been computed; `unit` itself is still needed, because the Case-4
fallback displays the original unit string.  Cases in source order:
weight table, piece units, package units, unknown-unit fallback. -/
def convert_grams_core (value : ℚ) (unit_lower : String) (unit : String)
    (product_info : Option ProductInfo) : ℤ × String :=
  match WEIGHT_CONVERSIONS.lookup unit_lower with
  | some multiplier => weightBranch value unit_lower multiplier
  | none =>
    if piece_units.contains unit_lower then piecesBranch value product_info
    else if package_units_all.contains unit_lower then packageBranch value product_info
    else fallbackBranch value unit

/-- `convert_to_grams(value, unit, product_info)`: convert an input quantity
to grams (the storage base unit), returning `(grams_as_int, display_string)`.
The unknown-unit fallback also prints a warning; that I/O side effect is not
part of the returned value and is not modelled. -/
def convert_to_grams (value : ℚ) (unit : String)
    (product_info : Option ProductInfo) : ℤ × String :=
  convert_grams_core value (pyStrip (pyLower unit)) unit product_info

/-- The error taxonomy of the conversion front end (spec section 7): the
handler rejects unparseable input and non-positive values before calling
`convert_to_grams`. -/
inductive ConversionError
  | InvalidUnitFormat
  | NonPositiveQuantity
deriving DecidableEq

/-- The validation-plus-conversion step of `quantity_entered`
(`src/bot/handlers/inventory.py`, lines 292-314): a parsed value `<= 0` is
rejected with the "quantity must be greater than zero" reply before any
conversion; otherwise `convert_to_grams` runs. -/
def quantity_entered_convert (value : ℚ) (unit : String)
    (product_info : Option ProductInfo) : Except ConversionError (ℤ × String) :=
  if value ≤ 0 then .error .NonPositiveQuantity
  else .ok (convert_to_grams value unit product_info)

/-- Sanity evaluations of the converter on the docstring/spec examples and
one package case. -/
theorem convert_to_grams_examples :
    convert_to_grams 5 "kg" none = (5000, "5000g (5kg)")
  ∧ convert_to_grams 3 "pieces" (some ⟨some 100, none⟩) = (300, "300g (3 pieces)")
  ∧ convert_to_grams 5 "xyz" none = (5, "5 xyz")
  ∧ convert_to_grams 2 "boxes" (some ⟨some 20, some 10⟩) =
      (400, "400g (2 packages, 20 pieces)") := by
  refine ⟨by decide, by decide, by decide, by decide⟩

/-! ## Python `float(...)` and `parse_quantity_input` (lines 186-232) -/

/-- The value a successful Python `float(...)` call denotes: a finite value
(modelled exactly as a rational), an infinity, or a NaN. -/
inductive PyFloat
  | num (q : ℚ)
  | inf
  | ninf
  | nan
deriving DecidableEq

/-- Greedy consumer for a CPython `digitpart` after its leading digit has
been checked: digits with single underscores allowed strictly between
digits.  Returns the digits (underscores dropped) and the unconsumed
rest. -/
def digitPartAux : List Char → List Char × List Char
  | [] => ([], [])
  | c :: cs =>
    if isDigitChar c then
      let (ds, r) := digitPartAux cs
      (c :: ds, r)
    else if c.toNat = 95 then
      match cs with
      | [] => ([], [c])
      | d :: cs2 =>
        if isDigitChar d then
          let (ds, r) := digitPartAux cs2
          (d :: ds, r)
        else ([], c :: cs)
    else ([], c :: cs)

/-- A CPython `digitpart`: `digit (["_"] digit)*`.  Fails unless the input
starts with a digit. -/
def digitPart (l : List Char) : Option (List Char × List Char) :=
  match l with
  | [] => none
  | c :: _ => if isDigitChar c then some (digitPartAux l) else none

/-- Numeric value of a digit string. -/
def digitsToNat (ds : List Char) : ℕ :=
  ds.foldl (fun n c => n * 10 + (c.toNat - 48)) 0

/-- Decimal-literal tail of CPython `float()` parsing, after stripping and
sign handling: `[digitpart] ["." [digitpart]] [("e"|"E") [sign] digitpart]`,
requiring at least one mantissa digit and no leftover input.  The result is
the exact rational `sgn * M * 10^(E - F)` where `M` is the mantissa read as
an integer, `F` the number of fraction digits and `E` the signed
exponent. -/
def parseDecimal (sgn : ℤ) (l : List Char) : Option PyFloat :=
  let ires := digitPart l
  let ipart := match ires with | some (ds, _) => ds | none => []
  let r1 := match ires with | some (_, r) => r | none => l
  let fres : Option (List Char) × List Char :=
    match r1 with
    | c :: r =>
      if c.toNat = 46 then
        match digitPart r with
        | some (ds, r3) => (some ds, r3)
        | none => (some [], r)
      else (none, r1)
    | [] => (none, [])
  let fpart := fres.1
  let r2 := fres.2
  let mantissaOk : Bool :=
    (!ipart.isEmpty) || (match fpart with | some ds => !ds.isEmpty | none => false)
  let eres : Option (ℤ × List Char) :=
    match r2 with
    | c :: r =>
      if c.toNat = 101 || c.toNat = 69 then
        let sr : ℤ × List Char :=
          match r with
          | e :: rr =>
            if e.toNat = 43 then (1, rr)
            else if e.toNat = 45 then (-1, rr) else (1, r)
          | [] => (1, [])
        match digitPart sr.2 with
        | some (eds, r5) => some (sr.1 * (digitsToNat eds : ℤ), r5)
        | none => none
      else some (0, r2)
    | [] => some (0, [])
  match eres with
  | none => none
  | some (e, rest) =>
    if mantissaOk && rest.isEmpty then
      let fds := fpart.getD []
      let m : ℤ := sgn * ((digitsToNat ipart * 10 ^ fds.length + digitsToNat fds : ℕ) : ℤ)
      let scale : ℤ := e - fds.length
      some (.num (if 0 ≤ scale then Rat.divInt (m * 10 ^ scale.toNat) 1
                  else mkRat m (10 ^ (-scale).toNat)))
    else none

/-- CPython `float(str)` on the ASCII fragment: strip whitespace, read an
optional sign, then either a case-insensitive `inf`/`infinity`/`nan` or a
decimal literal.  Returns `none` where `float()` raises `ValueError`. -/
def pyFloatChars (l0 : List Char) : Option PyFloat :=
  let l1 := pyStripList l0
  let sgn : ℤ × List Char :=
    match l1 with
    | c :: r =>
      if c.toNat = 43 then (1, r)
      else if c.toNat = 45 then (-1, r) else (1, l1)
    | [] => (1, [])
  let low := sgn.2.map Char.toLower
  if low = ['i', 'n', 'f'] || low = ['i', 'n', 'f', 'i', 'n', 'i', 't', 'y'] then
    some (if sgn.1 = 1 then .inf else .ninf)
  else if low = ['n', 'a', 'n'] then some .nan
  else parseDecimal sgn.1 sgn.2

/-- CPython `float(str)`. -/
def pyFloat (s : String) : Option PyFloat := pyFloatChars s.data

/-- Python `input_str.split(maxsplit=1)`: split on the first whitespace run,
discarding leading whitespace; at most two parts. -/
def splitMax1 (l : List Char) : List (List Char) :=
  if (l.dropWhile isPySpace).isEmpty then []
  else if ((l.dropWhile isPySpace).dropWhile (fun c => !isPySpace c)).isEmpty then
    [(l.dropWhile isPySpace).takeWhile (fun c => !isPySpace c)]
  else
    [(l.dropWhile isPySpace).takeWhile (fun c => !isPySpace c),
     ((l.dropWhile isPySpace).dropWhile (fun c => !isPySpace c)).dropWhile isPySpace]

/-- `re.match(r'^([\d.]+)\s*([a-zA-Zа-яА-Я]+)$', s)`: since the three
character classes are pairwise disjoint, the greedy match is the only
possible one — a maximal nonempty `[\d.]` prefix, a whitespace run, and a
nonempty all-letter remainder reaching the end. -/
def regexSplit (l : List Char) : Option (List Char × List Char) :=
  if !(l.takeWhile isDigitDotChar).isEmpty &&
      !((l.dropWhile isDigitDotChar).dropWhile isPySpace).isEmpty &&
      ((l.dropWhile isDigitDotChar).dropWhile isPySpace).all isUnitLetterChar then
    some (l.takeWhile isDigitDotChar, (l.dropWhile isDigitDotChar).dropWhile isPySpace)
  else none

/-- `parse_quantity_input(input_str)`: strip, then either the
space-separated branch (two `split` parts: `float(parts[0])` with
`parts[1].strip()` as the unit) or the no-space branch (the regex above,
with `float` of its first group); `(None, None)` — here `none` — on any
failure. -/
def parse_quantity_input (input_str : String) : Option (PyFloat × String) :=
  match splitMax1 (pyStripList input_str.data) with
  | [a, b] =>
    match pyFloatChars a with
    | some v => some (v, ⟨pyStripList b⟩)
    | none => none
  | [_] =>
    match regexSplit (pyStripList input_str.data) with
    | some (numTok, unitTok) =>
      match pyFloatChars numTok with
      | some v => some (v, ⟨unitTok⟩)
      | none => none
    | none => none
  | _ => none

/-- Sanity evaluations of the parser: the docstring examples, the failure
cases, and the behaviours the two branches do not share (signs and
exponents parse only in the space-separated branch; the unit side of the
space-separated branch is unvalidated). -/
theorem parse_quantity_input_examples :
    parse_quantity_input "5 kg" = some (.num 5, "kg")
  ∧ parse_quantity_input "100г" = some (.num 100, "г")
  ∧ parse_quantity_input "3 pieces" = some (.num 3, "pieces")
  ∧ parse_quantity_input "5.5kg" = some (.num (mkRat 11 2), "kg")
  ∧ parse_quantity_input "abc" = none
  ∧ parse_quantity_input "5" = none
  ∧ parse_quantity_input "-5 kg" = some (.num (-5), "kg")
  ∧ parse_quantity_input "-5kg" = none
  ∧ parse_quantity_input "inf kg" = some (.inf, "kg")
  ∧ parse_quantity_input "1e3 kg" = some (.num 1000, "kg")
  ∧ parse_quantity_input "1_0.5e-1 kg" = some (.num (mkRat 105 100), "kg")
  ∧ parse_quantity_input "5.5.5g" = none := by
  refine ⟨by decide, by decide, by decide, by decide, by decide, by decide,
    by decide, by decide, by decide, by decide, by decide, by decide⟩

/-- Sanity evaluations of the `float()` grammar edge cases: trailing or
leading decimal point, a bare point, a trailing underscore, a bare
exponent marker. -/
theorem pyFloat_examples :
    pyFloat "5." = some (.num 5)
  ∧ pyFloat ".5" = some (.num (mkRat 1 2))
  ∧ pyFloat "." = none
  ∧ pyFloat "1_" = none
  ∧ pyFloat "5e" = none := by
  refine ⟨by decide, by decide, by decide, by decide, by decide⟩

/-! ## The inventory transaction ledger
(`confirm_action` in `src/bot/handlers/inventory.py`, lines 354-488,
with the commit/rollback semantics of `get_db` in `src/database/db.py`,
lines 66-84) -/

/-- `TransactionActionType` (`src/database/models.py`). -/
inductive TransactionActionType
  | ADD
  | CONSUME
  | CORRECTION
deriving DecidableEq

/-- A `TransactionLog` row as `confirm_action` builds it (the fields the
ledger semantics touch; actor and product identification are carried along
verbatim, timestamps are not modelled). -/
structure TransactionLog where
  user_name : String
  action_type : TransactionActionType
  quantity_original : ℚ
  quantity_unit : String
  quantity_grams : ℤ
  quantity_display : String
  notes : String
  admin_flag : Bool
deriving DecidableEq

/-- The database state for one item: its `InventoryProduct.quantity`
(`none` when no stock row exists) and the `TransactionLog` rows for it, in
insertion order. -/
structure LedgerState where
  stock : Option ℤ
  log : List TransactionLog
deriving DecidableEq

/-- What `confirm_action` reports for one commit attempt: the success
message, the "Product not in inventory!" error, or the "Not enough
inventory!" error carrying the available and requested amounts. -/
inductive CommitOutcome
  | success
  | notInInventory
  | insufficientStock (available requested : ℤ)
deriving DecidableEq

/-- One run of the `confirm_action` database block for `entry`, starting
from state `s`.

The source adds the `TransactionLog` row to the session *before* checking
any precondition, and the CONSUME failure paths `return` from inside the
`async with get_db()` block; a normal (non-exception) exit of that context
manager runs `session.commit()`.  Every branch below therefore persists
`entry` in the log — including the two CONSUME failure branches, which
leave the stock untouched but still commit the already-added row.  Only an
exception would roll the session back (not modelled: no branch here
raises). -/
def confirm_action (entry : TransactionLog) (s : LedgerState) :
    LedgerState × CommitOutcome :=
  let log := s.log ++ [entry]
  match entry.action_type with
  | .ADD =>
    match s.stock with
    | none => (⟨some entry.quantity_grams, log⟩, .success)
    | some q => (⟨some (q + entry.quantity_grams), log⟩, .success)
  | .CONSUME =>
    match s.stock with
    | none => (⟨none, log⟩, .notInInventory)
    | some q =>
      if q < entry.quantity_grams then (⟨some q, log⟩, .insufficientStock q entry.quantity_grams)
      else (⟨some (q - entry.quantity_grams), log⟩, .success)
  | .CORRECTION => (⟨some entry.quantity_grams, log⟩, .success)

/-- Sequential application of a list of commits to one item's state. -/
def applyOps (ops : List TransactionLog) (s : LedgerState) : LedgerState :=
  ops.foldl (fun s e => (confirm_action e s).1) s

/-- The non-negative-stock invariant on one item's state. -/
def stockOk (s : LedgerState) : Prop :=
  match s.stock with
  | none => True
  | some q => 0 ≤ q

/-! ## `process_restock` (`src/database/operations.py`, lines 72-99) -/

/-- The `Ingredient` row fields `process_restock` touches:
`current_stock` is a float column in this schema revision. -/
structure IngredientState where
  current_stock : ℚ
deriving DecidableEq

/-- What `process_restock` returns: `{"success": False, "error": "Ingredient
not found"}`, or `{"success": True, ..., "new_stock": ...}`. -/
inductive RestockResult
  | notFound
  | success (new_stock : ℚ)
deriving DecidableEq

/-- `process_restock(session, ingredient_id, quantity, user_name)`: looks up
the ingredient, unconditionally does `current_stock += quantity` (no sign or
range check anywhere in the function), writes an audit row, and commits.
Returns the updated row state and the reported result. -/
def process_restock (ingredient : Option IngredientState) (quantity : ℚ) :
    Option IngredientState × RestockResult :=
  match ingredient with
  | none => (none, .notFound)
  | some ing =>
    let ns := ing.current_stock + quantity
    (some { current_stock := ns }, .success ns)

/-! ## Spec-side predicates for the parsing claim -/

/-- A numeric token in the sense of the spec's quantity grammar: nonempty,
made of digits/decimal points, and denoting a number (`float` accepts
it). -/
def specNumToken (l : List Char) : Bool :=
  !l.isEmpty && l.all isDigitDotChar && (pyFloatChars l).isSome

/-- A unit token in the sense of the spec's quantity grammar: a nonempty
run of (Latin/Cyrillic) letters. -/
def specUnitToken (l : List Char) : Bool :=
  !l.isEmpty && l.all isUnitLetterChar

/-- The two input shapes the claim says quantity parsing accepts, decomposed
by the same numeric-token + unit-token split: `"<number> <unit>"`
(space-separated) or `"<number><unit>"` (unit letters immediately following
the digits/decimal point). -/
def specShape (s : String) : Bool :=
  (List.range (s.data.length + 1)).any fun i =>
    let num := s.data.take i
    let rest := s.data.drop i
    specNumToken num &&
      ((match rest with
        | c :: u => c.toNat = 32 && specUnitToken u
        | [] => false) ||
       specUnitToken rest)

/-- The space-separated shape `parse_quantity_input` actually accepts on a
stripped input: a nonempty whitespace-free token that `float()` accepts, a
whitespace run, and an arbitrary nonempty remainder (which may itself
contain further spaces) serving as the unit. -/
def SpaceShape (t : List Char) : Prop :=
  ∃ numTok gap unitTok, t = numTok ++ gap ++ unitTok ∧
    numTok ≠ [] ∧ (∀ c ∈ numTok, isPySpace c = false) ∧
    gap ≠ [] ∧ (∀ c ∈ gap, isPySpace c = true) ∧
    unitTok ≠ [] ∧ (∀ c, unitTok.head? = some c → isPySpace c = false) ∧
    (pyFloatChars numTok).isSome = true

/-- The no-space shape `parse_quantity_input` actually accepts on a
stripped input: a nonempty digits/dots token that `float()` accepts,
immediately followed by a nonempty all-letter unit token. -/
def NoSpaceShape (t : List Char) : Prop :=
  ∃ numTok unitTok, t = numTok ++ unitTok ∧
    numTok ≠ [] ∧ (∀ c ∈ numTok, isDigitDotChar c = true) ∧
    unitTok ≠ [] ∧ (∀ c ∈ unitTok, isUnitLetterChar c = true) ∧
    (pyFloatChars numTok).isSome = true

/-! ## Theorems: the inventory ledger claims -/

/-- The CONSUME entry used to exercise the failed-commit paths: a request
for 400 canonical grams. -/
def consumeEntry400 : TransactionLog :=
  ⟨"Alice", .CONSUME, 400, "g", 400, "400g", "", false⟩

/-- C1.  The claim says a CONSUME that fails its precondition leaves no
TransactionRecord and an unchanged quantity.  The code violates the first
half: `confirm_action` adds the log row to the session before checking the
precondition, and its failure paths return normally out of the
`async with get_db()` block, so `session.commit()` persists the row.  At
stock 300 a CONSUME of 400 fails with the shortage message yet commits the
record; likewise with no stock row at all.  The quantity itself is
unchanged in both cases. -/
theorem failed_consume_persists_record :
    confirm_action consumeEntry400 ⟨some 300, []⟩ =
      (⟨some 300, [consumeEntry400]⟩, .insufficientStock 300 400)
  ∧ confirm_action consumeEntry400 ⟨none, []⟩ =
      (⟨none, [consumeEntry400]⟩, .notInInventory) := by
  constructor <;> rfl

/-- Auxiliary: one committed operation with a non-negative canonical amount
preserves the non-negative-stock invariant. -/
theorem confirm_action_stockOk (e : TransactionLog) (s : LedgerState)
    (hq : 0 ≤ e.quantity_grams) (hs : stockOk s) :
    stockOk (confirm_action e s).1 := by
  cases ha : e.action_type with
  | ADD =>
    cases hst : s.stock with
    | none => simpa [confirm_action, ha, hst, stockOk] using hq
    | some q =>
      have hsq : 0 ≤ q := by simpa [stockOk, hst] using hs
      simp only [confirm_action, ha, hst, stockOk]
      omega
  | CONSUME =>
    cases hst : s.stock with
    | none => simp [confirm_action, ha, hst, stockOk]
    | some q =>
      have hsq : 0 ≤ q := by simpa [stockOk, hst] using hs
      simp only [confirm_action, ha, hst]
      rcases lt_or_le q e.quantity_grams with h | h
      · simpa [if_pos h, stockOk] using hsq
      · simp only [if_neg (not_lt.2 h), stockOk]
        omega
  | CORRECTION =>
    cases hst : s.stock <;> simpa [confirm_action, ha, hst, stockOk] using hq

/-- C2.  Starting from no stock row or any non-negative quantity, every
sequence of ADD/CONSUME/CORRECTION commits with non-negative canonical
amounts keeps `quantity >= 0` (applying to every prefix, since the sequence
is universally quantified); and a CONSUME whose amount exceeds the
available quantity (or that finds no stock row) is rejected and leaves the
stock unchanged. -/
theorem stock_nonneg_invariant :
    (∀ (ops : List TransactionLog) (s0 : LedgerState),
        (∀ e ∈ ops, 0 ≤ e.quantity_grams) → stockOk s0 →
        stockOk (applyOps ops s0))
  ∧ (∀ (e : TransactionLog) (s : LedgerState),
        e.action_type = .CONSUME →
        (s.stock = none ∨ ∃ q, s.stock = some q ∧ q < e.quantity_grams) →
        (confirm_action e s).1.stock = s.stock ∧
          (confirm_action e s).2 ≠ .success) := by
  constructor
  · intro ops
    induction ops with
    | nil => intro s0 _ hs; exact hs
    | cons e rest ih =>
      intro s0 hall hs
      exact ih _ (fun x hx => hall x (List.mem_cons_of_mem _ hx))
        (confirm_action_stockOk e s0 (hall e (List.mem_cons_self _ _)) hs)
  · intro e s ha hfail
    rcases hfail with h | ⟨q, hq, hlt⟩
    · simp [confirm_action, ha, h]
    · simp [confirm_action, ha, hq, hlt]

/-- Closed instance of C2: the demonstration sequence ADD 300, CONSUME 400
(rejected), CORRECTION 50 from an absent stock row stays non-negative, and
the CONSUME of 400 against stock 300 is rejected without changing the
stock. -/
theorem stock_nonneg_invariant_witness :
    stockOk (applyOps
      [⟨"A", .ADD, 300, "g", 300, "300g", "", false⟩, consumeEntry400,
       ⟨"A", .CORRECTION, 50, "g", 50, "50g", "", false⟩] ⟨none, []⟩)
  ∧ ((confirm_action consumeEntry400 ⟨some 300, []⟩).1.stock = some 300 ∧
      (confirm_action consumeEntry400 ⟨some 300, []⟩).2 ≠ .success) :=
  ⟨stock_nonneg_invariant.1 _ _ (by decide) (by simp [stockOk]),
   stock_nonneg_invariant.2 consumeEntry400 ⟨some 300, []⟩ rfl
     (Or.inr ⟨300, rfl, by decide⟩)⟩

/-- C5.  A CORRECTION commit always succeeds and sets the stock quantity to
exactly the canonical amount, creating the stock row if it was absent. -/
theorem correction_sets_exact (e : TransactionLog) (s : LedgerState)
    (h : e.action_type = .CORRECTION) :
    (confirm_action e s).2 = .success ∧
      (confirm_action e s).1.stock = some e.quantity_grams := by
  simp [confirm_action, h]

/-- Closed instance of C5: correcting to 50 on stock 300 gives exactly 50,
and correcting to 50 with no stock row creates it at 50. -/
theorem correction_sets_exact_witness :
    ((confirm_action ⟨"A", .CORRECTION, 50, "g", 50, "50g", "", false⟩
        ⟨some 300, []⟩).2 = .success ∧
      (confirm_action ⟨"A", .CORRECTION, 50, "g", 50, "50g", "", false⟩
        ⟨some 300, []⟩).1.stock = some 50) :=
  correction_sets_exact _ _ rfl

/-- C10.  `process_restock` on an existing ingredient reports success and
sets `current_stock` to its old value plus the given quantity, with no sign
or range validation anywhere in the function: in particular a quantity of
-10 against stock 5 "succeeds" and leaves the stock at -5, below zero. -/
theorem restock_unvalidated_add :
    (∀ (ing : IngredientState) (q : ℚ),
        process_restock (some ing) q =
          (some ⟨ing.current_stock + q⟩, .success (ing.current_stock + q)))
  ∧ process_restock (some ⟨5⟩) (-10) = (some ⟨-5⟩, .success (-5))
  ∧ ((-5 : ℚ) < 0) := by
  refine ⟨fun ing q => rfl, ?_, by norm_num⟩
  simp only [process_restock]
  norm_num

/-! ## Theorems: the unit conversion claims -/

/-- `s ++ "" = s` (the interpolation of a trailing expression ends with an
empty literal chunk). -/
theorem strAppendEmpty (s : String) : s ++ "" = s := by
  cases s
  simp [String.append]

/-- C3.  The weight/volume table is exactly the four spelling families
(grams, kilograms, milliliters, liters, in source order); for every
positive value and any product metadata, a gram or milliliter spelling
converts 1:1 and a kilogram or liter spelling converts 1000:1, truncating
to integer grams; and `convert(5, "kg", {})` gives
`(5000, "5000g (5kg)")`. -/
theorem weight_conversion_correct :
    ((WEIGHT_CONVERSIONS.map Prod.fst).Perm
      (gramSpellings ++ kgSpellings ++ mlSpellings ++ literSpellings))
  ∧ (∀ (v : ℚ), 0 < v → ∀ (pi : Option ProductInfo),
      (∀ u ∈ gramSpellings ++ mlSpellings,
        (convert_to_grams v u pi).1 = pyInt v)
      ∧ (∀ u ∈ kgSpellings ++ literSpellings,
        (convert_to_grams v u pi).1 = pyInt (v * 1000)))
  ∧ convert_to_grams 5 "kg" none = (5000, "5000g (5kg)") := by
  refine ⟨by decide, ?_, by decide⟩
  intro v _ pi
  constructor
  · intro u hu
    fin_cases hu <;>
      (show pyInt (pyMul v 1) = pyInt v
       rw [pyMul_eq_mul, mul_one])
  · intro u hu
    fin_cases hu <;>
      (show pyInt (pyMul v 1000) = pyInt (v * 1000)
       rw [pyMul_eq_mul])

/-- Closed instance of C3 at `v = 5`, `u = "kg"`: the hypotheses `0 < 5`
and the list membership discharge by `decide`. -/
theorem weight_conversion_correct_witness :
    (convert_to_grams 5 "kg" none).1 = pyInt ((5 : ℚ) * 1000) :=
  ((weight_conversion_correct.2.1 5 (by decide) none).2 "kg" (by decide))

/-- C6.  Any parsed value `<= 0` is rejected with `NonPositiveQuantity`
before conversion, whatever the unit and product metadata. -/
theorem nonpositive_rejected (v : ℚ) (hv : v ≤ 0) (u : String)
    (pi : Option ProductInfo) :
    quantity_entered_convert v u pi = .error .NonPositiveQuantity := by
  simp [quantity_entered_convert, hv]

/-- Closed instance of C6: `convert(-2, "kg", {})` fails with
`NonPositiveQuantity`. -/
theorem nonpositive_rejected_witness :
    quantity_entered_convert (-2) "kg" none = .error .NonPositiveQuantity :=
  nonpositive_rejected (-2) (by decide) "kg" none

/-- Branch selection: any piece-family spelling reaches Case 2. -/
theorem convert_core_pieces (v : ℚ) (ul u : String) (pi : Option ProductInfo)
    (hul : ul ∈ piece_units) :
    convert_grams_core v ul u pi = piecesBranch v pi := by
  fin_cases hul <;> rfl

/-- Branch selection: a spelling in no recognized family reaches the Case-4
fallback. -/
theorem convert_core_fallback (v : ℚ) (ul u : String) (pi : Option ProductInfo)
    (h1 : WEIGHT_CONVERSIONS.lookup ul = none)
    (h2 : ul ∉ piece_units)
    (h3 : ul ∉ package_units_all) :
    convert_grams_core v ul u pi = fallbackBranch v u := by
  simp [convert_grams_core, h1, h2, h3]

/-- C4, counterexample.  The claim says a piece conversion with a known
grammovka rounds: `round(v * per_unit_weight)`.  The code truncates with
`int(...)`: at `v = 1.5` pieces with grammovka 1 the code stores 1 gram
while `round(1.5 * 1) = 2`. -/
theorem piece_round_counterexample :
    (convert_to_grams (mkRat 3 2) "pieces" (some ⟨some 1, none⟩)).1 = 1
  ∧ round (mkRat 3 2 * ((1 : ℤ) : ℚ)) = 2
  ∧ (convert_to_grams (mkRat 3 2) "pieces" (some ⟨some 1, none⟩)).1 ≠
      round (mkRat 3 2 * ((1 : ℤ) : ℚ)) := by
  have h1 : (convert_to_grams (mkRat 3 2) "pieces" (some ⟨some 1, none⟩)).1 = 1 := by
    decide
  have h2 : round (mkRat 3 2 * ((1 : ℤ) : ℚ)) = 2 := by
    have hval : mkRat 3 2 * ((1 : ℤ) : ℚ) = 3 / 2 := by
      rw [Rat.mkRat_eq_div]
      norm_num
    rw [hval]
    norm_num [round_eq]
  exact ⟨h1, h2, by rw [h1, h2]; decide⟩

/-- C4, amended.  For a positive value and a piece-family unit spelling:
with a known (truthy) grammovka the canonical quantity is
`int(v * grammovka)` — truncation toward zero, not rounding — displayed as
grams with the truncated piece count; with no usable grammovka the code
stores `int(v)` pieces directly (the raw count, truncated), with no weight
conversion.  The spec's example `convert(3, "pieces", {per_unit_weight:
100}) = (300, "300g (3 pieces)")` holds as stated. -/
theorem piece_conversion_truncates (v : ℚ) (hv : 0 < v) (u : String)
    (hu : pyStrip (pyLower u) ∈ piece_units) (pi : Option ProductInfo) :
    (∀ g : ℤ, getGrammovka pi = some g →
      convert_to_grams v u pi =
        (pyInt (v * (g : ℚ)),
         toString (pyInt (v * (g : ℚ))) ++ "g (" ++ toString (pyInt v) ++ " pieces)"))
  ∧ (getGrammovka pi = none →
      convert_to_grams v u pi = (pyInt v, toString (pyInt v) ++ " pieces"))
  ∧ convert_to_grams 3 "pieces" (some ⟨some 100, none⟩) = (300, "300g (3 pieces)") := by
  have hcore : convert_to_grams v u pi = piecesBranch v pi :=
    convert_core_pieces v _ u pi hu
  refine ⟨?_, ?_, by decide⟩
  · intro g hg
    rw [hcore]
    simp only [piecesBranch, hg]
    rw [pyMul_eq_mul]
    exact rfl
  · intro hg
    rw [hcore]
    simp only [piecesBranch, hg]
    exact rfl

/-- Closed instance of the amended C4 at the spec's own example inputs,
obtained by applying the theorem at `v = 3`, `u = "pieces"`,
grammovka 100. -/
theorem piece_conversion_truncates_witness :
    convert_to_grams 3 "pieces" (some ⟨some 100, none⟩) =
      (pyInt ((3 : ℚ) * ((100 : ℤ) : ℚ)),
       toString (pyInt ((3 : ℚ) * ((100 : ℤ) : ℚ))) ++ "g (" ++
         toString (pyInt (3 : ℚ)) ++ " pieces)") :=
  (piece_conversion_truncates 3 (by decide) "pieces" (by decide)
      (some ⟨some 100, none⟩)).1 100 rfl

/-- C7, counterexample.  The claim says an unrecognized unit stores the raw
numeric value unchanged; the code stores `int(value)`: at `v = 2.5` with
unit `"xyz"` the stored canonical quantity is 2, not 2.5. -/
theorem unknown_unit_counterexample :
    (convert_to_grams (mkRat 5 2) "xyz" none).1 = 2
  ∧ (((convert_to_grams (mkRat 5 2) "xyz" none).1 : ℚ) ≠ mkRat 5 2) := by
  decide

/-- C7, amended.  For a positive value and a unit whose lowercased, stripped
spelling is in no recognized family, conversion does not fail: it returns
`int(v)` — the raw value truncated toward zero, hence unchanged exactly for
whole-number inputs — labelled with the literal (original) unit string; the
`UnrecognizedUnit` warning is printed, not returned.  In particular
`convert(5, "xyz", {})` succeeds with canonical 5 and display `"5 xyz"`. -/
theorem unknown_unit_truncated_passthrough (v : ℚ) (hv : 0 < v) (u : String)
    (h1 : WEIGHT_CONVERSIONS.lookup (pyStrip (pyLower u)) = none)
    (h2 : pyStrip (pyLower u) ∉ piece_units)
    (h3 : pyStrip (pyLower u) ∉ package_units_all)
    (pi : Option ProductInfo) :
    convert_to_grams v u pi = (pyInt v, toString (pyInt v) ++ " " ++ u)
  ∧ convert_to_grams 5 "xyz" none = (5, "5 xyz") := by
  constructor
  · rw [show convert_to_grams v u pi = fallbackBranch v u from
      convert_core_fallback v _ u pi h1 h2 h3]
    apply Prod.ext
    · rfl
    · show (toString (pyInt v) ++ " " ++ u) ++ "" = toString (pyInt v) ++ " " ++ u
      exact strAppendEmpty _
  · decide

/-- Closed instance of the amended C7 at the spec's own example inputs. -/
theorem unknown_unit_truncated_passthrough_witness :
    convert_to_grams 5 "xyz" none = (pyInt (5 : ℚ), toString (pyInt (5 : ℚ)) ++ " " ++ "xyz") :=
  (unknown_unit_truncated_passthrough 5 (by decide) "xyz" (by decide) (by decide)
      (by decide) none).1

/-! ## Theorems: the quantity-parsing claim -/

/-- C8, counterexample.  The claim says parsing succeeds exactly on the two
numeric-token + unit-token shapes.  The input `"5 kg kg"` is neither —
after the numeric token `"5"`, the remainder `"kg kg"` is not a unit token
(it contains a space) — yet `parse_quantity_input` accepts it, because the
space-separated branch takes everything after the first whitespace run as
the unit with no validation at all. -/
theorem parse_shape_counterexample :
    parse_quantity_input "5 kg kg" = some (.num 5, "kg kg")
  ∧ specShape "5 kg kg" = false := by
  decide

/-- Unit-letter characters are not whitespace. -/
theorem unitLetter_not_space {c : Char} (h : isUnitLetterChar c = true) :
    isPySpace c = false := by
  simp only [isUnitLetterChar, Bool.or_eq_true, Bool.and_eq_true,
    decide_eq_true_eq] at h
  simp only [isPySpace, Bool.or_eq_false_iff, decide_eq_false_iff_not]
  omega

/-- Unit-letter characters are not in the `[\d.]` class. -/
theorem unitLetter_not_digitdot {c : Char} (h : isUnitLetterChar c = true) :
    isDigitDotChar c = false := by
  simp only [isUnitLetterChar, Bool.or_eq_true, Bool.and_eq_true,
    decide_eq_true_eq] at h
  simp only [isDigitDotChar, isDigitChar, Bool.or_eq_false_iff,
    Bool.and_eq_false_iff, decide_eq_false_iff_not]
  omega

/-- `[\d.]` characters are not whitespace. -/
theorem digitdot_not_space {c : Char} (h : isDigitDotChar c = true) :
    isPySpace c = false := by
  simp only [isDigitDotChar, isDigitChar, Bool.or_eq_true, Bool.and_eq_true,
    decide_eq_true_eq] at h
  simp only [isPySpace, Bool.or_eq_false_iff, decide_eq_false_iff_not]
  omega

/-- `takeWhile` passes over a prefix whose elements all satisfy the
predicate. -/
theorem takeWhile_append_of_all {p : Char → Bool} :
    ∀ {l1 : List Char} (l2 : List Char), (∀ c ∈ l1, p c = true) →
      (l1 ++ l2).takeWhile p = l1 ++ l2.takeWhile p
  | [], l2, _ => rfl
  | c :: cs, l2, h => by
    have hc : p c = true := h c (List.mem_cons_self _ _)
    simp only [List.cons_append, List.takeWhile_cons, hc, if_true]
    rw [takeWhile_append_of_all l2 (fun x hx => h x (List.mem_cons_of_mem _ hx))]

/-- `dropWhile` consumes a prefix whose elements all satisfy the
predicate. -/
theorem dropWhile_append_of_all {p : Char → Bool} :
    ∀ {l1 : List Char} (l2 : List Char), (∀ c ∈ l1, p c = true) →
      (l1 ++ l2).dropWhile p = l2.dropWhile p
  | [], l2, _ => rfl
  | c :: cs, l2, h => by
    have hc : p c = true := h c (List.mem_cons_self _ _)
    simp only [List.cons_append, List.dropWhile_cons, hc, if_true]
    exact dropWhile_append_of_all l2 (fun x hx => h x (List.mem_cons_of_mem _ hx))

/-- `takeWhile` keeps a list all of whose elements satisfy the
predicate. -/
theorem takeWhile_eq_self_of_all {p : Char → Bool} {l : List Char}
    (h : ∀ c ∈ l, p c = true) : l.takeWhile p = l := by
  have := @takeWhile_append_of_all p l [] h
  simpa using this

/-- `dropWhile` drops a list all of whose elements satisfy the
predicate. -/
theorem dropWhile_eq_nil_of_all {p : Char → Bool} {l : List Char}
    (h : ∀ c ∈ l, p c = true) : l.dropWhile p = [] :=
  List.dropWhile_eq_nil_iff.mpr h

/-- `dropWhile` is the identity when the head (if any) fails the
predicate. -/
theorem dropWhile_eq_self_of_head {p : Char → Bool} {l : List Char}
    (h : ∀ c, l.head? = some c → p c = false) : l.dropWhile p = l := by
  cases l with
  | nil => rfl
  | cons c cs => simp [List.dropWhile_cons, h c rfl]

/-- The head of a `dropWhile` result fails the predicate. -/
theorem head?_dropWhile_false {p : Char → Bool} :
    ∀ {l : List Char} {c : Char}, (l.dropWhile p).head? = some c → p c = false
  | [], c, h => by simp at h
  | a :: as, c, h => by
    by_cases ha : p a = true
    · rw [List.dropWhile_cons, if_pos ha] at h
      exact head?_dropWhile_false h
    · rw [List.dropWhile_cons, if_neg ha] at h
      simp only [List.head?_cons, Option.some.injEq] at h
      subst h
      exact Bool.eq_false_iff.mpr ha

/-- A nonempty prefix determines the head. -/
theorem head?_of_prefix {l1 l2 : List Char} (h : l1 <+: l2) (hne : l1 ≠ []) :
    l2.head? = l1.head? := by
  rcases h with ⟨u, rfl⟩
  cases l1 with
  | nil => exact absurd rfl hne
  | cons c cs => rfl

/-- A stripped list does not start with whitespace. -/
theorem pyStripList_head_false (l : List Char) :
    ∀ c, (pyStripList l).head? = some c → isPySpace c = false := by
  intro c hc
  have hpref : pyStripList l <+: l.dropWhile isPySpace := by
    have hsuff : (l.dropWhile isPySpace).reverse.dropWhile isPySpace <:+
        (l.dropWhile isPySpace).reverse := List.dropWhile_suffix _
    have := List.reverse_prefix.mpr hsuff
    simpa [pyStripList] using this
  have hne : pyStripList l ≠ [] := by
    intro h
    rw [h] at hc
    simp at hc
  have hhead : (l.dropWhile isPySpace).head? = (pyStripList l).head? :=
    head?_of_prefix hpref hne
  exact head?_dropWhile_false (p := isPySpace) (hhead ▸ hc)

/-- A stripped list does not end with whitespace. -/
theorem pyStripList_getLast_false (l : List Char) :
    ∀ c, (pyStripList l).getLast? = some c → isPySpace c = false := by
  intro c hc
  rw [pyStripList, List.getLast?_reverse] at hc
  exact head?_dropWhile_false (p := isPySpace) hc

/-- A stripped list is `dropWhile`-stable. -/
theorem dropWhile_pyStripList (l : List Char) :
    (pyStripList l).dropWhile isPySpace = pyStripList l :=
  dropWhile_eq_self_of_head (pyStripList_head_false l)

/-- Computation of `split(maxsplit=1)` on a decomposed two-part input:
a whitespace-free nonempty token, a whitespace run, and a remainder not
starting with whitespace. -/
theorem splitMax1_eq_two {num gap unit : List Char}
    (hnum_ne : num ≠ []) (hnum : ∀ c ∈ num, isPySpace c = false)
    (hgap_ne : gap ≠ []) (hgap : ∀ c ∈ gap, isPySpace c = true)
    (hunit_ne : unit ≠ [])
    (hunit_head : ∀ c, unit.head? = some c → isPySpace c = false) :
    splitMax1 (num ++ gap ++ unit) = [num, unit] := by
  obtain ⟨n0, ns, rfl⟩ := List.exists_cons_of_ne_nil hnum_ne
  obtain ⟨g0, gs, rfl⟩ := List.exists_cons_of_ne_nil hgap_ne
  have hq : ∀ c ∈ n0 :: ns, (fun c => !isPySpace c) c = true := by
    intro c hcmem
    simp [hnum c hcmem]
  have hdrop0 : ((n0 :: ns) ++ (g0 :: gs) ++ unit).dropWhile isPySpace =
      (n0 :: ns) ++ (g0 :: gs) ++ unit := by
    apply dropWhile_eq_self_of_head
    intro c hc
    simp only [List.cons_append, List.head?_cons, Option.some.injEq] at hc
    subst hc
    exact hnum n0 (List.mem_cons_self _ _)
  have htake : ((n0 :: ns) ++ (g0 :: gs) ++ unit).takeWhile (fun c => !isPySpace c) =
      n0 :: ns := by
    rw [List.append_assoc, takeWhile_append_of_all _ hq]
    have : ((g0 :: gs) ++ unit).takeWhile (fun c => !isPySpace c) = [] := by
      simp [List.takeWhile_cons, hgap g0 (List.mem_cons_self _ _)]
    rw [this, List.append_nil]
  have hdropq : ((n0 :: ns) ++ (g0 :: gs) ++ unit).dropWhile (fun c => !isPySpace c) =
      (g0 :: gs) ++ unit := by
    rw [List.append_assoc, dropWhile_append_of_all _ hq]
    apply dropWhile_eq_self_of_head
    intro c hc
    simp only [List.cons_append, List.head?_cons, Option.some.injEq] at hc
    subst hc
    simp [hgap g0 (List.mem_cons_self _ _)]
  have hrest : ((g0 :: gs) ++ unit).dropWhile isPySpace = unit := by
    rw [dropWhile_append_of_all _ hgap]
    exact dropWhile_eq_self_of_head hunit_head
  rw [splitMax1, hdrop0, htake, hdropq]
  rw [if_neg (by simp), if_neg (by simp), hrest]

/-- Computation of `split(maxsplit=1)` on a nonempty whitespace-free
input: one part. -/
theorem splitMax1_eq_one {l : List Char} (hne : l ≠ [])
    (hall : ∀ c ∈ l, isPySpace c = false) : splitMax1 l = [l] := by
  have hq : ∀ c ∈ l, (fun c => !isPySpace c) c = true := by
    intro c hcmem
    simp [hall c hcmem]
  have hdrop0 : l.dropWhile isPySpace = l :=
    dropWhile_eq_self_of_head (fun c hc =>
      hall c (by cases l with
        | nil => simp at hc
        | cons a as =>
          simp only [List.head?_cons, Option.some.injEq] at hc
          subst hc
          exact List.mem_cons_self _ _))
  rw [splitMax1, hdrop0]
  rw [if_neg (by simp [hne]), takeWhile_eq_self_of_all hq,
    dropWhile_eq_nil_of_all hq]
  simp

/-- Computation of the quantity regex on a decomposed input: a nonempty
`[\d.]` token directly followed by a nonempty letter token. -/
theorem regexSplit_eq_some {num unit : List Char}
    (hnum_ne : num ≠ []) (hnum : ∀ c ∈ num, isDigitDotChar c = true)
    (hunit_ne : unit ≠ []) (hunit : ∀ c ∈ unit, isUnitLetterChar c = true) :
    regexSplit (num ++ unit) = some (num, unit) := by
  obtain ⟨u0, us, rfl⟩ := List.exists_cons_of_ne_nil hunit_ne
  have htake : (num ++ u0 :: us).takeWhile isDigitDotChar = num := by
    rw [takeWhile_append_of_all _ hnum]
    have : (u0 :: us).takeWhile isDigitDotChar = [] := by
      simp [List.takeWhile_cons,
        unitLetter_not_digitdot (hunit u0 (List.mem_cons_self _ _))]
    rw [this, List.append_nil]
  have hdrop : (num ++ u0 :: us).dropWhile isDigitDotChar = u0 :: us := by
    rw [dropWhile_append_of_all _ hnum]
    apply dropWhile_eq_self_of_head
    intro c hc
    simp only [List.head?_cons, Option.some.injEq] at hc
    subst hc
    exact unitLetter_not_digitdot (hunit u0 (List.mem_cons_self _ _))
  have hdrop2 : (u0 :: us).dropWhile isPySpace = u0 :: us := by
    apply dropWhile_eq_self_of_head
    intro c hc
    simp only [List.head?_cons, Option.some.injEq] at hc
    subst hc
    exact unitLetter_not_space (hunit u0 (List.mem_cons_self _ _))
  rw [regexSplit, htake, hdrop, hdrop2]
  rw [if_pos]
  obtain ⟨m0, ms, rfl⟩ := List.exists_cons_of_ne_nil hnum_ne
  simp [List.all_eq_true.mpr hunit]

/-- Decomposition of a two-part `split(maxsplit=1)` result on a stripped
input. -/
theorem splitMax1_two_decomp {t a b : List Char}
    (hhead : ∀ c, t.head? = some c → isPySpace c = false)
    (hlast : ∀ c, t.getLast? = some c → isPySpace c = false)
    (h : splitMax1 t = [a, b]) :
    ∃ gap, t = a ++ gap ++ b ∧ a ≠ [] ∧ (∀ c ∈ a, isPySpace c = false) ∧
      gap ≠ [] ∧ (∀ c ∈ gap, isPySpace c = true) ∧
      b ≠ [] ∧ (∀ c, b.head? = some c → isPySpace c = false) := by
  have hdrop0 : t.dropWhile isPySpace = t := dropWhile_eq_self_of_head hhead
  rw [splitMax1, hdrop0] at h
  by_cases h1 : t.isEmpty
  · rw [if_pos h1] at h
    simp at h
  · rw [if_neg h1] at h
    by_cases h2 : (t.dropWhile (fun c => !isPySpace c)).isEmpty
    · rw [if_pos h2] at h
      simp at h
    · rw [if_neg h2] at h
      obtain ⟨ha, hb⟩ : t.takeWhile (fun c => !isPySpace c) = a ∧
          (t.dropWhile (fun c => !isPySpace c)).dropWhile isPySpace = b := by
        simpa using h
      have htne : t ≠ [] := by
        intro hte
        rw [hte] at h1
        exact h1 rfl
      have hrne : t.dropWhile (fun c => !isPySpace c) ≠ [] := by
        intro hre
        rw [hre] at h2
        exact h2 rfl
      refine ⟨(t.dropWhile (fun c => !isPySpace c)).takeWhile isPySpace, ?_, ?_, ?_, ?_, ?_, ?_, ?_⟩
      · rw [← ha, ← hb]
        rw [List.append_assoc, List.takeWhile_append_dropWhile,
          List.takeWhile_append_dropWhile]
      · rw [← ha]
        obtain ⟨c, cs, rfl⟩ := List.exists_cons_of_ne_nil htne
        have : isPySpace c = false := hhead c rfl
        simp [List.takeWhile_cons, this]
      · intro c hc
        rw [← ha] at hc
        have := List.mem_takeWhile_imp hc
        simpa using this
      · obtain ⟨c, cs, hcs⟩ := List.exists_cons_of_ne_nil hrne
        have hc : isPySpace c = true := by
          have := head?_dropWhile_false (p := fun c => !isPySpace c)
            (l := t) (c := c) (by rw [hcs]; rfl)
          simpa using this
        rw [hcs]
        simp [List.takeWhile_cons, hc]
      · intro c hc
        exact List.mem_takeWhile_imp hc
      · intro hbe
        have hrest : t.dropWhile (fun c => !isPySpace c) =
            (t.dropWhile (fun c => !isPySpace c)).takeWhile isPySpace := by
          conv_lhs => rw [← List.takeWhile_append_dropWhile
            (p := isPySpace) (l := t.dropWhile (fun c => !isPySpace c))]
          rw [hb, hbe, List.append_nil]
        have hgapne : (t.dropWhile (fun c => !isPySpace c)).takeWhile isPySpace ≠ [] := by
          rw [← hrest]
          exact hrne
        have hteq : t = a ++ (t.dropWhile (fun c => !isPySpace c)).takeWhile isPySpace := by
          rw [← ha]
          conv_lhs => rw [← List.takeWhile_append_dropWhile
            (p := fun c => !isPySpace c) (l := t)]
          rw [← hrest]
        have hc : ((t.dropWhile (fun c => !isPySpace c)).takeWhile isPySpace).getLast? =
            some (((t.dropWhile (fun c => !isPySpace c)).takeWhile isPySpace).getLast hgapne) :=
          List.getLast?_eq_getLast _ hgapne
        have htlast : t.getLast? =
            some (((t.dropWhile (fun c => !isPySpace c)).takeWhile isPySpace).getLast hgapne) := by
          conv_lhs => rw [hteq]
          rw [List.getLast?_append_of_ne_nil _ hgapne]
          exact hc
        have hfalse := hlast _ htlast
        have htrue := List.mem_takeWhile_imp (List.mem_of_mem_getLast? hc)
        exact Bool.false_ne_true (hfalse ▸ htrue)
      · intro c hc
        rw [← hb] at hc
        exact head?_dropWhile_false hc

/-- Decomposition of a one-part `split(maxsplit=1)` result on a stripped
input: the input is nonempty and whitespace-free. -/
theorem splitMax1_one_decomp {t a : List Char}
    (hhead : ∀ c, t.head? = some c → isPySpace c = false)
    (h : splitMax1 t = [a]) :
    a = t ∧ t ≠ [] ∧ ∀ c ∈ t, isPySpace c = false := by
  have hdrop0 : t.dropWhile isPySpace = t := dropWhile_eq_self_of_head hhead
  rw [splitMax1, hdrop0] at h
  by_cases h1 : t.isEmpty
  · rw [if_pos h1] at h
    simp at h
  · rw [if_neg h1] at h
    by_cases h2 : (t.dropWhile (fun c => !isPySpace c)).isEmpty
    · rw [if_pos h2] at h
      have ha : t.takeWhile (fun c => !isPySpace c) = a := by simpa using h
      have hall : ∀ c ∈ t, (fun c => !isPySpace c) c = true :=
        List.dropWhile_eq_nil_iff.mp (by simpa using h2)
      refine ⟨?_, by simpa using h1, fun c hc => by simpa using hall c hc⟩
      rw [← ha, takeWhile_eq_self_of_all hall]
    · rw [if_neg h2] at h
      simp at h

/-- Decomposition of a successful quantity-regex match on a
whitespace-free input. -/
theorem regexSplit_some_decomp {t num u : List Char}
    (hall : ∀ c ∈ t, isPySpace c = false)
    (h : regexSplit t = some (num, u)) :
    t = num ++ u ∧ num ≠ [] ∧ (∀ c ∈ num, isDigitDotChar c = true) ∧
      u ≠ [] ∧ (∀ c ∈ u, isUnitLetterChar c = true) := by
  rw [regexSplit] at h
  by_cases hcond : (!(t.takeWhile isDigitDotChar).isEmpty &&
      !((t.dropWhile isDigitDotChar).dropWhile isPySpace).isEmpty &&
      ((t.dropWhile isDigitDotChar).dropWhile isPySpace).all isUnitLetterChar) = true
  · rw [if_pos hcond] at h
    obtain ⟨hn, hu⟩ : t.takeWhile isDigitDotChar = num ∧
        (t.dropWhile isDigitDotChar).dropWhile isPySpace = u := by
      simpa using h
    have hr1 : (t.dropWhile isDigitDotChar).dropWhile isPySpace =
        t.dropWhile isDigitDotChar := by
      apply dropWhile_eq_self_of_head
      intro c hc
      have hcmem : c ∈ t.dropWhile isDigitDotChar := by
        cases he : t.dropWhile isDigitDotChar with
        | nil => rw [he] at hc; simp at hc
        | cons x xs =>
          rw [he] at hc
          simp only [List.head?_cons, Option.some.injEq] at hc
          subst hc
          exact List.mem_cons_self _ _
      exact hall c ((List.dropWhile_suffix isDigitDotChar).sublist.subset hcmem)
    simp only [Bool.and_eq_true, Bool.not_eq_true', List.all_eq_true] at hcond
    obtain ⟨⟨hne1, hne2⟩, hletters⟩ := hcond
    refine ⟨?_, ?_, ?_, ?_, ?_⟩
    · rw [← hn, ← hu, hr1, List.takeWhile_append_dropWhile]
    · rw [← hn]
      intro habs
      rw [habs] at hne1
      simp at hne1
    · intro c hc
      rw [← hn] at hc
      exact List.mem_takeWhile_imp hc
    · rw [← hu]
      intro habs
      rw [habs] at hne2
      simp at hne2
    · intro c hc
      rw [← hu] at hc
      exact hletters c hc
  · rw [if_neg hcond] at h
    simp at h

/-- C8, amended.  Parsing succeeds exactly when the stripped input has one
of two shapes: (a) a whitespace-free token that Python `float()` accepts,
a whitespace run, and an arbitrary nonempty remainder taken as the unit —
the remainder is not validated and may itself contain spaces, and the
numeric token follows the full `float()` grammar (signs, exponents,
infinities), not just digits and dots; or (b) a nonempty digits/dots token
that `float()` accepts immediately followed by a nonempty all-letter unit
token.  The two branches do *not* use the same numeric-token split:
`"-5 kg"` parses while `"-5kg"` does not. -/
theorem parse_success_iff (s : String) :
    (parse_quantity_input s).isSome = true ↔
      (SpaceShape (pyStripList s.data) ∨ NoSpaceShape (pyStripList s.data)) := by
  constructor
  · intro h
    rw [parse_quantity_input] at h
    rcases hsp : splitMax1 (pyStripList s.data) with _ | ⟨a, _ | ⟨b, _ | ⟨c, rest⟩⟩⟩
    · rw [hsp] at h
      simp at h
    · rw [hsp] at h
      dsimp only at h
      rcases hrs : regexSplit (pyStripList s.data) with _ | ⟨num, u⟩
      · rw [hrs] at h
        simp at h
      · rw [hrs] at h
        dsimp only at h
        rcases hpf : pyFloatChars num with _ | v
        · rw [hpf] at h
          simp at h
        · obtain ⟨-, -, hall⟩ :=
            splitMax1_one_decomp (pyStripList_head_false s.data) hsp
          obtain ⟨heq, hnum_ne, hnum, hu_ne, hu⟩ := regexSplit_some_decomp hall hrs
          exact Or.inr ⟨num, u, heq, hnum_ne, hnum, hu_ne, hu, by rw [hpf]; rfl⟩
    · rw [hsp] at h
      dsimp only at h
      rcases hpf : pyFloatChars a with _ | v
      · rw [hpf] at h
        simp at h
      · obtain ⟨gap, heq, ha_ne, ha, hgap_ne, hgap, hb_ne, hb⟩ :=
          splitMax1_two_decomp (pyStripList_head_false s.data)
            (pyStripList_getLast_false s.data) hsp
        exact Or.inl ⟨a, gap, b, heq, ha_ne, ha, hgap_ne, hgap, hb_ne, hb,
          by rw [hpf]; rfl⟩
    · rw [hsp] at h
      simp at h
  · intro h
    rw [parse_quantity_input]
    rcases h with ⟨num, gap, unit, heq, hnum_ne, hnum, hgap_ne, hgap, hunit_ne,
        hunit_head, hfloat⟩ | ⟨num, unit, heq, hnum_ne, hnum, hunit_ne, hunit, hfloat⟩
    · have hsp : splitMax1 (pyStripList s.data) = [num, unit] := by
        rw [heq]
        exact splitMax1_eq_two hnum_ne hnum hgap_ne hgap hunit_ne hunit_head
      rw [hsp]
      dsimp only
      obtain ⟨v, hv⟩ := Option.isSome_iff_exists.mp hfloat
      rw [hv]
      rfl
    · have hall : ∀ c ∈ pyStripList s.data, isPySpace c = false := by
        intro c hc
        rw [heq] at hc
        rcases List.mem_append.mp hc with hc | hc
        · exact digitdot_not_space (hnum c hc)
        · exact unitLetter_not_space (hunit c hc)
      have htne : pyStripList s.data ≠ [] := by
        rw [heq]
        intro habs
        exact hnum_ne (List.append_eq_nil.mp habs).1
      have hsp : splitMax1 (pyStripList s.data) = [pyStripList s.data] :=
        splitMax1_eq_one htne hall
      rw [hsp]
      dsimp only
      have hrs : regexSplit (pyStripList s.data) = some (num, unit) := by
        rw [heq]
        exact regexSplit_eq_some hnum_ne hnum hunit_ne hunit
      rw [hrs]
      dsimp only
      obtain ⟨v, hv⟩ := Option.isSome_iff_exists.mp hfloat
      rw [hv]
      rfl
